import Mathlib

/-!
Shallow embedding of the recognition core of the artspotter backend
(`src/api/index.js`, with identical copies in `src/railway-backend/index.js`
and the second unnamed source file):

* `calculateSimilarity` — cosine similarity of two feature vectors
  (lines 68–83 of `src/api/index.js`);
* the `/api/recognize` matcher loop (lines 104–118) — linear scan keeping
  `bestMatch` and `highestSimilarity`;
* the threshold decision and response (lines 120–158).

Feature vectors are modelled as lists of real numbers (the idealisation of
JavaScript doubles; the stored JSON string is modelled as the parsed vector,
an absent vector as `none`).  JavaScript division of finite doubles can
produce `NaN` (`0/0`) or a signed infinity (`x/0`, `x ≠ 0`), and `NaN`
compares false under `>`; this is captured by the `JNum` type below, so the
embedding does not silently define `0/0 = 0` the way real-number division in
Lean would.
-/

/-- A JavaScript number that is either finite, an infinity, or `NaN`. -/
inductive JNum where
  | nan : JNum
  | posInf : JNum
  | negInf : JNum
  | fin : ℝ → JNum

/-- IEEE-754 division of two finite doubles, idealised over the reals:
a nonzero denominator gives the real quotient, `0/0` is `NaN`, and
`x/0` with `x ≠ 0` is a signed infinity. -/
noncomputable def JNum.div (x y : ℝ) : JNum :=
  if y = 0 then
    if x = 0 then JNum.nan
    else if x > 0 then JNum.posInf
    else JNum.negInf
  else JNum.fin (x / y)

/-- The JavaScript `>` comparison on numbers: any comparison involving
`NaN` is false; infinities compare as expected; finite values compare as
reals. -/
noncomputable def JNum.gt : JNum → JNum → Bool
  | JNum.nan, _ => false
  | JNum.posInf, JNum.nan => false
  | JNum.posInf, JNum.posInf => false
  | JNum.posInf, JNum.negInf => true
  | JNum.posInf, JNum.fin _ => true
  | JNum.negInf, _ => false
  | JNum.fin _, JNum.nan => false
  | JNum.fin _, JNum.posInf => false
  | JNum.fin _, JNum.negInf => true
  | JNum.fin x, JNum.fin y => decide (x > y)

/-- The accumulation loop of `calculateSimilarity`
(`for (let i = 0; ...) { dotProduct += ...; norm1 += ...; norm2 += ...; }`):
a single left fold over the paired entries returning
`(dotProduct, norm1, norm2)`.  The loop only runs when the lengths are
equal (the guard has already returned), so pairing by `zip` is exact. -/
def simSums (features1 features2 : List ℝ) : ℝ × ℝ × ℝ :=
  (features1.zip features2).foldl
    (fun acc p => (acc.1 + p.1 * p.2, acc.2.1 + p.1 * p.1, acc.2.2 + p.2 * p.2))
    (0, 0, 0)

/-- The function `calculateSimilarity` (`src/api/index.js` lines 68–83): if the lengths
differ, return `0`; otherwise return
`dotProduct / (Math.sqrt(norm1) * Math.sqrt(norm2))` with JavaScript
division semantics.  (`Math.sqrt` agrees with `Real.sqrt` on the
nonnegative arguments that sums of squares provide.) -/
noncomputable def calculateSimilarity (features1 features2 : List ℝ) : JNum :=
  if features1.length ≠ features2.length then JNum.fin 0
  else
    let s := simSums features1 features2
    JNum.div s.1 (Real.sqrt s.2.1 * Real.sqrt s.2.2)

/-- A catalog row as consumed by the recognition loop: the id and the
stored feature vector (`none` when the `features` column is NULL / the
painting has not been processed).  The descriptive metadata columns are
payload the matcher carries untouched and are not modelled. -/
structure Painting where
  id : ℕ
  features : Option (List ℝ)

/-- One iteration of the matcher loop (`src/api/index.js` lines 108–118):
skip a row without features; otherwise compute the similarity and update
`(bestMatch, highestSimilarity)` exactly when
`similarity > highestSimilarity`. -/
noncomputable def matcherStep (uploadedFeatures : List ℝ)
    (st : Option Painting × JNum) (painting : Painting) :
    Option Painting × JNum :=
  match painting.features with
  | some storedFeatures =>
      let similarity := calculateSimilarity uploadedFeatures storedFeatures
      if JNum.gt similarity st.2 then (some painting, similarity) else st
  | none => st

/-- The matcher loop (`src/api/index.js` lines 104–118):
`bestMatch = null; highestSimilarity = 0;` then fold `matcherStep` over
the candidate rows. -/
noncomputable def matcherLoop (uploadedFeatures : List ℝ)
    (rows : List Painting) : Option Painting × JNum :=
  rows.foldl (matcherStep uploadedFeatures) (none, JNum.fin 0)

/-- The recognition outcome: either `success: false` with the best
confidence observed, or `success: true` with the winning painting and its
confidence. -/
inductive MatchResult where
  | noMatch : JNum → MatchResult
  | matched : Painting → JNum → MatchResult

/-- The confidence value carried in either kind of response. -/
def MatchResult.confidence : MatchResult → JNum
  | MatchResult.noMatch c => c
  | MatchResult.matched _ c => c

/-- The constant threshold of the handler
(`const confidenceThreshold = 0.6`). -/
noncomputable def confidenceThreshold : ℝ := 0.6

/-- The decision part of `/api/recognize` (`src/api/index.js` lines
104–158): run the matcher loop, then return success exactly when
`bestMatch && highestSimilarity > confidenceThreshold`; either way the
response carries `highestSimilarity` as the confidence.  The threshold is
a parameter here (the handler fixes it to `0.6`), matching the contract
`match(query, candidates, threshold)`. -/
noncomputable def recognize (uploadedFeatures : List ℝ)
    (rows : List Painting) (threshold : ℝ) : MatchResult :=
  let st := matcherLoop uploadedFeatures rows
  match st.1 with
  | some bestMatch =>
      if JNum.gt st.2 (JNum.fin threshold) then
        MatchResult.matched bestMatch st.2
      else
        MatchResult.noMatch st.2
  | none => MatchResult.noMatch st.2

/-- The finite similarity scores of the eligible candidates, in input
order (specification-side definition used to state what the loop
reports). -/
noncomputable def finScores (uploadedFeatures : List ℝ)
    (rows : List Painting) : List ℝ :=
  rows.filterMap fun painting =>
    match painting.features with
    | some storedFeatures =>
        match calculateSimilarity uploadedFeatures storedFeatures with
        | JNum.fin x => some x
        | _ => none
    | none => none

/-- The best score the loop can report: the maximum of `0` and the finite
similarity scores of the eligible candidates. -/
noncomputable def bestObserved (uploadedFeatures : List ℝ)
    (rows : List Painting) : ℝ :=
  (finScores uploadedFeatures rows).foldl max 0

/-! ### Helper lemmas: the accumulation loop as sums -/

/-- The three running accumulators of the similarity loop, as sums over the
paired entries, for an arbitrary starting state. -/
theorem foldl3_eq (l : List (ℝ × ℝ)) :
    ∀ a b c : ℝ,
      l.foldl (fun acc p => (acc.1 + p.1 * p.2, acc.2.1 + p.1 * p.1, acc.2.2 + p.2 * p.2))
        (a, b, c)
        = (a + (l.map fun p => p.1 * p.2).sum,
           b + (l.map fun p => p.1 * p.1).sum,
           c + (l.map fun p => p.2 * p.2).sum) := by
  induction l with
  | nil => intro a b c; simp
  | cons p t ih =>
      intro a b c
      simp only [List.foldl_cons, List.map_cons, List.sum_cons, ih]
      refine Prod.ext (by ring) (Prod.ext (by ring) (by ring))

/-- The fold `simSums` computes the dot product and the two squared norms of the
zipped entries. -/
theorem simSums_eq (f1 f2 : List ℝ) :
    simSums f1 f2
      = (((f1.zip f2).map fun p => p.1 * p.2).sum,
         ((f1.zip f2).map fun p => p.1 * p.1).sum,
         ((f1.zip f2).map fun p => p.2 * p.2).sum) := by
  unfold simSums
  rw [foldl3_eq]
  simp

/-- A sum of squares of first components is nonnegative. -/
theorem fstSq_sum_nonneg (l : List (ℝ × ℝ)) :
    0 ≤ ((l.map fun p => p.1 * p.1).sum) := by
  apply List.sum_nonneg
  intro x hx
  rcases List.mem_map.1 hx with ⟨p, _, rfl⟩
  exact mul_self_nonneg _

/-- A sum of squares of second components is nonnegative. -/
theorem sndSq_sum_nonneg (l : List (ℝ × ℝ)) :
    0 ≤ ((l.map fun p => p.2 * p.2).sum) := by
  apply List.sum_nonneg
  intro x hx
  rcases List.mem_map.1 hx with ⟨p, _, rfl⟩
  exact mul_self_nonneg _

/-- If the sum of squares of first components vanishes, every first
component vanishes. -/
theorem fstSq_sum_eq_zero {l : List (ℝ × ℝ)}
    (h : ((l.map fun p => p.1 * p.1).sum) = 0) :
    ∀ p ∈ l, p.1 = 0 := by
  intro p hp
  have hnn : ∀ x ∈ (l.map fun p => p.1 * p.1), (0 : ℝ) ≤ x := by
    intro x hx
    rcases List.mem_map.1 hx with ⟨q, _, rfl⟩
    exact mul_self_nonneg _
  have hmem : p.1 * p.1 ∈ (l.map fun p => p.1 * p.1) :=
    List.mem_map.2 ⟨p, hp, rfl⟩
  have := List.all_zero_of_le_zero_le_of_sum_eq_zero hnn h hmem
  exact mul_self_eq_zero.1 this

/-- If the sum of squares of second components vanishes, every second
component vanishes. -/
theorem sndSq_sum_eq_zero {l : List (ℝ × ℝ)}
    (h : ((l.map fun p => p.2 * p.2).sum) = 0) :
    ∀ p ∈ l, p.2 = 0 := by
  intro p hp
  have hnn : ∀ x ∈ (l.map fun p => p.2 * p.2), (0 : ℝ) ≤ x := by
    intro x hx
    rcases List.mem_map.1 hx with ⟨q, _, rfl⟩
    exact mul_self_nonneg _
  have hmem : p.2 * p.2 ∈ (l.map fun p => p.2 * p.2) :=
    List.mem_map.2 ⟨p, hp, rfl⟩
  have := List.all_zero_of_le_zero_le_of_sum_eq_zero hnn h hmem
  exact mul_self_eq_zero.1 this

/-- When the denominator of the cosine quotient vanishes, so does the dot
product: a zero product of square-root norms forces one of the two squared
norms to vanish, hence one whole side of every pair, hence every term of
the dot product. -/
theorem dot_eq_zero_of_denom_eq_zero {f1 f2 : List ℝ}
    (h : Real.sqrt (simSums f1 f2).2.1 * Real.sqrt (simSums f1 f2).2.2 = 0) :
    (simSums f1 f2).1 = 0 := by
  rw [simSums_eq] at h ⊢
  simp only at h ⊢
  rcases mul_eq_zero.1 h with h1 | h1
  · have hle : ((((f1.zip f2).map fun p => p.1 * p.1).sum)) ≤ 0 :=
      Real.sqrt_eq_zero'.1 h1
    have hz : ((((f1.zip f2).map fun p => p.1 * p.1).sum)) = 0 :=
      le_antisymm hle (fstSq_sum_nonneg _)
    apply List.sum_eq_zero
    intro x hx
    rcases List.mem_map.1 hx with ⟨p, hp, rfl⟩
    rw [fstSq_sum_eq_zero hz p hp, zero_mul]
  · have hle : ((((f1.zip f2).map fun p => p.2 * p.2).sum)) ≤ 0 :=
      Real.sqrt_eq_zero'.1 h1
    have hz : ((((f1.zip f2).map fun p => p.2 * p.2).sum)) = 0 :=
      le_antisymm hle (sndSq_sum_nonneg _)
    apply List.sum_eq_zero
    intro x hx
    rcases List.mem_map.1 hx with ⟨p, hp, rfl⟩
    rw [sndSq_sum_eq_zero hz p hp, mul_zero]

/-- The similarity is never an infinity: it is `NaN` (when both
norms multiply to zero) or a finite value. -/
theorem calculateSimilarity_cases (f1 f2 : List ℝ) :
    calculateSimilarity f1 f2 = JNum.nan ∨
      ∃ x : ℝ, calculateSimilarity f1 f2 = JNum.fin x := by
  unfold calculateSimilarity
  by_cases hlen : f1.length ≠ f2.length
  · rw [if_pos hlen]
    exact Or.inr ⟨0, rfl⟩
  · rw [if_neg hlen]
    simp only [JNum.div]
    by_cases hd : Real.sqrt (simSums f1 f2).2.1 * Real.sqrt (simSums f1 f2).2.2 = 0
    · rw [if_pos hd, if_pos (dot_eq_zero_of_denom_eq_zero hd)]
      exact Or.inl rfl
    · rw [if_neg hd]
      exact Or.inr ⟨_, rfl⟩


/-! ### Helper lemmas: folding `max` -/

/-- The running maximum never drops below its starting value. -/
theorem foldl_max_init_le (l : List ℝ) : ∀ b : ℝ, b ≤ l.foldl max b := by
  induction l with
  | nil => intro b; exact le_refl b
  | cons a t ih =>
      intro b
      exact le_trans (le_max_left b a) (ih (max b a))

/-- If every element is at most the starting value, folding `max` leaves
the starting value unchanged. -/
theorem foldl_max_const {l : List ℝ} : ∀ {b : ℝ}, (∀ y ∈ l, y ≤ b) →
    l.foldl max b = b := by
  induction l with
  | nil => intro b _; rfl
  | cons a t ih =>
      intro b h
      have ha : max b a = b := max_eq_left (h a (List.mem_cons_self a t))
      simp only [List.foldl_cons, ha]
      exact ih fun y hy => h y (List.mem_cons_of_mem a hy)

/-- The folded maximum is the starting value or one of the elements. -/
theorem foldl_max_mem (l : List ℝ) : ∀ b : ℝ,
    l.foldl max b = b ∨ l.foldl max b ∈ l := by
  induction l with
  | nil => intro b; exact Or.inl rfl
  | cons a t ih =>
      intro b
      rcases ih (max b a) with h | h
      · rcases max_choice b a with hb | hb
        · exact Or.inl (by rw [List.foldl_cons, h, hb])
        · refine Or.inr ?_
          rw [List.foldl_cons, h, hb]
          exact List.mem_cons_self a t
      · exact Or.inr (List.mem_cons_of_mem a (by rw [List.foldl_cons]; exact h))

/-- Every element is at most the folded maximum. -/
theorem le_foldl_max_of_mem {l : List ℝ} {y : ℝ} (hy : y ∈ l) :
    ∀ b : ℝ, y ≤ l.foldl max b := by
  induction l with
  | nil => cases hy
  | cons a t ih =>
      intro b
      rcases List.mem_cons.1 hy with rfl | hmem
      · exact le_trans (le_max_right b y) (foldl_max_init_le t (max b y))
      · exact ih hmem (max b a)

/-! ### Helper lemmas: `finScores` -/

/-- A row without features contributes no score. -/
theorem finScores_cons_none (q : List ℝ) (p : Painting) (rows : List Painting)
    (h : p.features = none) :
    finScores q (p :: rows) = finScores q rows := by
  simp [finScores, List.filterMap_cons, h]

/-- A row whose similarity is `NaN` contributes no score. -/
theorem finScores_cons_nan (q : List ℝ) (p : Painting) (rows : List Painting)
    (fv : List ℝ) (h : p.features = some fv)
    (hs : calculateSimilarity q fv = JNum.nan) :
    finScores q (p :: rows) = finScores q rows := by
  simp [finScores, List.filterMap_cons, h, hs]

/-- A row with a finite similarity contributes that score. -/
theorem finScores_cons_fin (q : List ℝ) (p : Painting) (rows : List Painting)
    (fv : List ℝ) (x : ℝ) (h : p.features = some fv)
    (hs : calculateSimilarity q fv = JNum.fin x) :
    finScores q (p :: rows) = x :: finScores q rows := by
  simp [finScores, List.filterMap_cons, h, hs]

/-- Every recorded score comes from an eligible row with that finite
similarity. -/
theorem mem_finScores {q : List ℝ} {rows : List Painting} {y : ℝ}
    (hy : y ∈ finScores q rows) :
    ∃ p ∈ rows, ∃ fv, p.features = some fv ∧
      calculateSimilarity q fv = JNum.fin y := by
  rcases List.mem_filterMap.1 hy with ⟨p, hp, hval⟩
  refine ⟨p, hp, ?_⟩
  cases hf : p.features with
  | none => simp [hf] at hval
  | some fv =>
      refine ⟨fv, rfl, ?_⟩
      cases hs : calculateSimilarity q fv with
      | fin x => simp [hf, hs] at hval; rw [hval]
      | nan => simp [hf, hs] at hval
      | posInf => simp [hf, hs] at hval
      | negInf => simp [hf, hs] at hval

/-- An eligible row's finite similarity is recorded among the scores. -/
theorem finScores_mem {q : List ℝ} {rows : List Painting} {p : Painting}
    {fv : List ℝ} {x : ℝ} (hp : p ∈ rows) (hf : p.features = some fv)
    (hs : calculateSimilarity q fv = JNum.fin x) :
    x ∈ finScores q rows := by
  apply List.mem_filterMap.2
  exact ⟨p, hp, by simp [hf, hs]⟩

/-- With no eligible rows there are no scores. -/
theorem finScores_all_none {q : List ℝ} {rows : List Painting}
    (h : ∀ p ∈ rows, p.features = none) :
    finScores q rows = [] := by
  apply List.filterMap_eq_nil_iff.2
  intro p hp
  rw [h p hp]

/-! ### Helper lemmas: one step of the matcher loop -/

/-- A row without features leaves the state unchanged. -/
theorem matcherStep_none (q : List ℝ) (st : Option Painting × JNum)
    (p : Painting) (h : p.features = none) :
    matcherStep q st p = st := by
  simp [matcherStep, h]

/-- A row whose similarity is `NaN` leaves the state unchanged: `NaN`
never compares greater. -/
theorem matcherStep_nan (q : List ℝ) (st : Option Painting × JNum)
    (p : Painting) (fv : List ℝ) (h : p.features = some fv)
    (hs : calculateSimilarity q fv = JNum.nan) :
    matcherStep q st p = st := by
  simp [matcherStep, h, hs, JNum.gt]

/-- A finite similarity not exceeding the running best leaves the state
unchanged. -/
theorem matcherStep_fin_le (q : List ℝ) (bm : Option Painting) (b : ℝ)
    (p : Painting) (fv : List ℝ) (x : ℝ) (h : p.features = some fv)
    (hs : calculateSimilarity q fv = JNum.fin x) (hx : x ≤ b) :
    matcherStep q (bm, JNum.fin b) p = (bm, JNum.fin b) := by
  simp [matcherStep, h, hs, JNum.gt, not_lt.mpr hx]

/-- A finite similarity strictly above the running best becomes the new
best, with the row as the new best match. -/
theorem matcherStep_fin_gt (q : List ℝ) (bm : Option Painting) (b : ℝ)
    (p : Painting) (fv : List ℝ) (x : ℝ) (h : p.features = some fv)
    (hs : calculateSimilarity q fv = JNum.fin x) (hx : b < x) :
    matcherStep q (bm, JNum.fin b) p = (some p, JNum.fin x) := by
  simp [matcherStep, h, hs, JNum.gt, hx]

/-! ### The loop characterisation -/

/-- Complete characterisation of the matcher loop from an arbitrary
starting state `(bm, highestSimilarity = b)`: the final running best is
the maximum of `b` and the finite scores; and either no update ever fired
(the best match is still `bm` and every finite score is at most `b`), or
the final best match is the first row attaining the final maximum, that
maximum is strictly above `b`, and every eligible row before it scores
strictly less. -/
theorem loopAux_char (q : List ℝ) (rows : List Painting) :
    ∀ (bm : Option Painting) (b : ℝ),
      (rows.foldl (matcherStep q) (bm, JNum.fin b)).2
          = JNum.fin ((finScores q rows).foldl max b) ∧
      ( ((rows.foldl (matcherStep q) (bm, JNum.fin b)).1 = bm ∧
            ∀ y ∈ finScores q rows, y ≤ b) ∨
        ∃ l₁ p l₂ x, rows = l₁ ++ p :: l₂ ∧
            (∃ fv, p.features = some fv ∧
              calculateSimilarity q fv = JNum.fin x) ∧
            b < x ∧ (∀ y ∈ finScores q l₁, y < x) ∧
            (rows.foldl (matcherStep q) (bm, JNum.fin b)).1 = some p ∧
            (finScores q rows).foldl max b = x ) := by
  induction rows with
  | nil =>
      intro bm b
      refine ⟨by simp [finScores], Or.inl ⟨rfl, ?_⟩⟩
      intro y hy
      simp [finScores] at hy
  | cons r t ih =>
      intro bm b
      cases hf : r.features with
      | none =>
          have hstep : matcherStep q (bm, JNum.fin b) r = (bm, JNum.fin b) :=
            matcherStep_none q _ r hf
          rw [List.foldl_cons, hstep, finScores_cons_none q r t hf]
          rcases ih bm b with ⟨h1, h2⟩
          refine ⟨h1, ?_⟩
          rcases h2 with ⟨ha, hb⟩ | ⟨l₁, p, l₂, x, hdec, helig, hbx, hlt, hfst, hmax⟩
          · exact Or.inl ⟨ha, hb⟩
          · refine Or.inr ⟨r :: l₁, p, l₂, x, by rw [hdec, List.cons_append], helig, hbx, ?_, hfst, hmax⟩
            rw [finScores_cons_none q r l₁ hf]
            exact hlt
      | some fv =>
          rcases calculateSimilarity_cases q fv with hs | ⟨x, hs⟩
          · have hstep : matcherStep q (bm, JNum.fin b) r = (bm, JNum.fin b) :=
              matcherStep_nan q _ r fv hf hs
            rw [List.foldl_cons, hstep, finScores_cons_nan q r t fv hf hs]
            rcases ih bm b with ⟨h1, h2⟩
            refine ⟨h1, ?_⟩
            rcases h2 with ⟨ha, hb⟩ | ⟨l₁, p, l₂, x, hdec, helig, hbx, hlt, hfst, hmax⟩
            · exact Or.inl ⟨ha, hb⟩
            · refine Or.inr ⟨r :: l₁, p, l₂, x, by rw [hdec, List.cons_append], helig, hbx, ?_, hfst, hmax⟩
              rw [finScores_cons_nan q r l₁ fv hf hs]
              exact hlt
          · by_cases hx : b < x
            · have hstep : matcherStep q (bm, JNum.fin b) r = (some r, JNum.fin x) :=
                matcherStep_fin_gt q bm b r fv x hf hs hx
              rw [List.foldl_cons, hstep, finScores_cons_fin q r t fv x hf hs,
                List.foldl_cons, max_eq_right hx.le]
              rcases ih (some r) x with ⟨h1, h2⟩
              refine ⟨h1, ?_⟩
              rcases h2 with ⟨ha, hb⟩ |
                ⟨l₁, p, l₂, x', hdec, helig, hxx', hlt, hfst, hmax⟩
              · refine Or.inr ⟨[], r, t, x, rfl, ⟨fv, hf, hs⟩, hx, ?_, ha, ?_⟩
                · intro y hy
                  simp [finScores] at hy
                · exact foldl_max_const hb
              · refine Or.inr ⟨r :: l₁, p, l₂, x', by rw [hdec, List.cons_append], helig,
                  lt_trans hx hxx', ?_, hfst, hmax⟩
                rw [finScores_cons_fin q r l₁ fv x hf hs]
                intro y hy
                rcases List.mem_cons.1 hy with rfl | hmem
                · exact hxx'
                · exact hlt y hmem
            · have hxle : x ≤ b := not_lt.1 hx
              have hstep : matcherStep q (bm, JNum.fin b) r = (bm, JNum.fin b) :=
                matcherStep_fin_le q bm b r fv x hf hs hxle
              rw [List.foldl_cons, hstep, finScores_cons_fin q r t fv x hf hs,
                List.foldl_cons, max_eq_left hxle]
              rcases ih bm b with ⟨h1, h2⟩
              refine ⟨h1, ?_⟩
              rcases h2 with ⟨ha, hb⟩ |
                ⟨l₁, p, l₂, x', hdec, helig, hbx', hlt, hfst, hmax⟩
              · refine Or.inl ⟨ha, ?_⟩
                intro y hy
                rcases List.mem_cons.1 hy with rfl | hmem
                · exact hxle
                · exact hb y hmem
              · refine Or.inr ⟨r :: l₁, p, l₂, x', by rw [hdec, List.cons_append], helig, hbx',
                  ?_, hfst, hmax⟩
                rw [finScores_cons_fin q r l₁ fv x hf hs]
                intro y hy
                rcases List.mem_cons.1 hy with rfl | hmem
                · exact lt_of_le_of_lt hxle hbx'
                · exact hlt y hmem

/-- The loop characterisation at the handler's starting state
`bestMatch = null`, `highestSimilarity = 0`. -/
theorem matcherLoop_char (q : List ℝ) (rows : List Painting) :
    (matcherLoop q rows).2 = JNum.fin (bestObserved q rows) ∧
      ( ((matcherLoop q rows).1 = none ∧ ∀ y ∈ finScores q rows, y ≤ 0) ∨
        ∃ l₁ p l₂ x, rows = l₁ ++ p :: l₂ ∧
            (∃ fv, p.features = some fv ∧
              calculateSimilarity q fv = JNum.fin x) ∧
            0 < x ∧ (∀ y ∈ finScores q l₁, y < x) ∧
            (matcherLoop q rows).1 = some p ∧
            bestObserved q rows = x ) :=
  loopAux_char q rows none 0

/-! ### Concrete evaluations -/

/-- Similarity of `[1]` with itself is `1`. -/
theorem sim_eval_one_one : calculateSimilarity [(1 : ℝ)] [(1 : ℝ)] = JNum.fin 1 := by
  unfold calculateSimilarity
  norm_num [simSums, JNum.div, Real.sqrt_one]

/-- Similarity of `[1]` and `[-1]` is `-1`. -/
theorem sim_eval_one_neg :
    calculateSimilarity [(1 : ℝ)] [(-1 : ℝ)] = JNum.fin (-1) := by
  unfold calculateSimilarity
  norm_num [simSums, JNum.div, Real.sqrt_one]

/-- Similarity of `[1]` and the zero vector `[0]` is `NaN`: the code
computes `0 / (Math.sqrt(1) * Math.sqrt(0)) = 0 / 0`. -/
theorem sim_eval_one_zero :
    calculateSimilarity [(1 : ℝ)] [(0 : ℝ)] = JNum.nan := by
  unfold calculateSimilarity
  norm_num [simSums, JNum.div, Real.sqrt_one, Real.sqrt_zero]

/-- The loop over the single candidate with vector `[-1]` (similarity
`-1`) never updates: the running best stays `0` and no best match is
recorded. -/
theorem loop_eval_neg :
    matcherLoop [(1 : ℝ)] [⟨1, some [(-1 : ℝ)]⟩] = (none, JNum.fin 0) := by
  unfold matcherLoop
  rw [List.foldl_cons,
    matcherStep_fin_le [(1 : ℝ)] none 0 ⟨1, some [(-1 : ℝ)]⟩ [(-1 : ℝ)] (-1) rfl
      sim_eval_one_neg (by norm_num),
    List.foldl_nil]

/-- Recognition against the single `[-1]` candidate at threshold `1/2`
reports no match with confidence `0`. -/
theorem recognize_eval_neg_half :
    recognize [(1 : ℝ)] [⟨1, some [(-1 : ℝ)]⟩] (1 / 2)
      = MatchResult.noMatch (JNum.fin 0) := by
  unfold recognize
  rw [loop_eval_neg]

/-- Recognition against the single `[-1]` candidate at threshold `-2`
also reports no match with confidence `0`, although the candidate's
similarity `-1` is strictly greater than `-2`. -/
theorem recognize_eval_neg_negthr :
    recognize [(1 : ℝ)] [⟨1, some [(-1 : ℝ)]⟩] (-2)
      = MatchResult.noMatch (JNum.fin 0) := by
  unfold recognize
  rw [loop_eval_neg]

/-- Recognition against the single `[1]` candidate at the handler's
threshold `0.6` succeeds with confidence `1`. -/
theorem recognize_eval_pos :
    recognize [(1 : ℝ)] [⟨1, some [(1 : ℝ)]⟩] confidenceThreshold
      = MatchResult.matched ⟨1, some [(1 : ℝ)]⟩ (JNum.fin 1) := by
  unfold recognize matcherLoop
  rw [List.foldl_cons,
    matcherStep_fin_gt [(1 : ℝ)] none 0 ⟨1, some [(1 : ℝ)]⟩ [(1 : ℝ)] 1 rfl
      sim_eval_one_one (by norm_num),
    List.foldl_nil]
  norm_num [JNum.gt, confidenceThreshold]

/-- Recognition against the single `[1]` candidate at threshold `2`
reports no match with confidence `1`. -/
theorem recognize_eval_over :
    recognize [(1 : ℝ)] [⟨1, some [(1 : ℝ)]⟩] 2
      = MatchResult.noMatch (JNum.fin 1) := by
  unfold recognize matcherLoop
  rw [List.foldl_cons,
    matcherStep_fin_gt [(1 : ℝ)] none 0 ⟨1, some [(1 : ℝ)]⟩ [(1 : ℝ)] 1 rfl
      sim_eval_one_one (by norm_num),
    List.foldl_nil]
  norm_num [JNum.gt]

/-- Two candidates with identical vectors tie at similarity `1`; the loop
keeps the first and recognition at threshold `1/2` returns it. -/
theorem recognize_eval_tie :
    recognize [(1 : ℝ)] [⟨1, some [(1 : ℝ)]⟩, ⟨2, some [(1 : ℝ)]⟩] (1 / 2)
      = MatchResult.matched ⟨1, some [(1 : ℝ)]⟩ (JNum.fin 1) := by
  unfold recognize matcherLoop
  rw [List.foldl_cons,
    matcherStep_fin_gt [(1 : ℝ)] none 0 ⟨1, some [(1 : ℝ)]⟩ [(1 : ℝ)] 1 rfl
      sim_eval_one_one (by norm_num),
    List.foldl_cons,
    matcherStep_fin_le [(1 : ℝ)] (some ⟨1, some [(1 : ℝ)]⟩) 1 ⟨2, some [(1 : ℝ)]⟩
      [(1 : ℝ)] 1 rfl sim_eval_one_one (by norm_num),
    List.foldl_nil]
  norm_num [JNum.gt]

/-- The recorded scores for the single `[1]` candidate. -/
theorem bestObserved_eval_pos :
    bestObserved [(1 : ℝ)] [⟨1, some [(1 : ℝ)]⟩] = 1 := by
  unfold bestObserved
  rw [finScores_cons_fin [(1 : ℝ)] ⟨1, some [(1 : ℝ)]⟩ [] [(1 : ℝ)] 1 rfl
    sim_eval_one_one]
  simp [finScores]

/-! ### Supporting lemmas for the similarity-function claims -/

/-- Pairing a list with itself pairs each element with itself. -/
theorem zip_self (v : List ℝ) : v.zip v = v.map fun x => (x, x) := by
  induction v with
  | nil => rfl
  | cons a t ih => simp [ih]

/-- Any query compared against an equal-length all-zero vector yields
`NaN`, not `0`: the zero norm makes the denominator `Math.sqrt(norm1) * 0
= 0` while the dot product is also `0`, so the code computes `0 / 0`. -/
theorem sim_zero_vector_nan (w z : List ℝ) (hlen : w.length = z.length)
    (hz : ∀ x ∈ z, x = 0) :
    calculateSimilarity w z = JNum.nan := by
  unfold calculateSimilarity
  rw [if_neg (by simp [hlen])]
  have hz2 : (((w.zip z).map fun p => p.2 * p.2)).sum = 0 := by
    apply List.sum_eq_zero
    intro y hy
    rcases List.mem_map.1 hy with ⟨pq, hpq, rfl⟩
    rw [hz pq.2 (List.of_mem_zip hpq).2, mul_zero]
  have hdot : (((w.zip z).map fun p => p.1 * p.2)).sum = 0 := by
    apply List.sum_eq_zero
    intro y hy
    rcases List.mem_map.1 hy with ⟨pq, hpq, rfl⟩
    rw [hz pq.2 (List.of_mem_zip hpq).2, mul_zero]
  simp only [simSums_eq, hz2, hdot]
  unfold JNum.div
  rw [Real.sqrt_zero, mul_zero]
  simp

/-! ### The claims about the similarity function -/

/-- C1: the spec demands that comparing against an all-zero vector yield
similarity `0`; the code instead computes `0 / (Math.sqrt(1) *
Math.sqrt(0)) = 0 / 0 = NaN`.  Concretely, for `w = [1]` and the
equal-length zero vector `z = [0]` the similarity is `NaN`, which is not
the value `0`. -/
theorem c1_zero_norm_similarity_is_nan_not_zero :
    calculateSimilarity [(1 : ℝ)] [(0 : ℝ)] = JNum.nan ∧
      JNum.nan ≠ JNum.fin 0 :=
  ⟨sim_eval_one_zero, fun hcontra => JNum.noConfusion hcontra⟩

/-- C5: for vectors of differing lengths the similarity function returns
the score `0` (and, being a total function, surfaces no exception). -/
theorem c5_mismatched_lengths_yield_zero (a b : List ℝ)
    (h : a.length ≠ b.length) :
    calculateSimilarity a b = JNum.fin 0 := by
  unfold calculateSimilarity
  rw [if_pos h]

/-- C5 witness: `[1]` against `[1, 2]`. -/
theorem c5_witness :
    ([(1 : ℝ)].length ≠ [(1 : ℝ), 2].length) ∧
      calculateSimilarity [(1 : ℝ)] [(1 : ℝ), 2] = JNum.fin 0 :=
  ⟨by simp, c5_mismatched_lengths_yield_zero [(1 : ℝ)] [(1 : ℝ), 2] (by simp)⟩

/-- C9: every vector with some nonzero component has similarity exactly
`1` with itself in the real-valued embedding: the dot product and both
squared norms coincide, and `Math.sqrt(n) * Math.sqrt(n) = n ≠ 0`. -/
theorem c9_self_similarity_is_one (v : List ℝ) (h : ∃ x ∈ v, x ≠ 0) :
    calculateSimilarity v v = JNum.fin 1 := by
  have hz : v.zip v = v.map fun x => (x, x) := zip_self v
  have hd : (((v.zip v).map fun p => p.1 * p.2)).sum = (v.map fun x => x * x).sum := by
    rw [hz, List.map_map]; rfl
  have h1 : (((v.zip v).map fun p => p.1 * p.1)).sum = (v.map fun x => x * x).sum := by
    rw [hz, List.map_map]; rfl
  have h2 : (((v.zip v).map fun p => p.2 * p.2)).sum = (v.map fun x => x * x).sum := by
    rw [hz, List.map_map]; rfl
  have hnn : 0 ≤ (v.map fun x => x * x).sum := by
    apply List.sum_nonneg
    intro y hy
    rcases List.mem_map.1 hy with ⟨x, _, rfl⟩
    exact mul_self_nonneg x
  rcases h with ⟨x0, hx0, hne⟩
  have hpos : 0 < (v.map fun x => x * x).sum := by
    have hmem : x0 * x0 ∈ v.map fun x => x * x := List.mem_map.2 ⟨x0, hx0, rfl⟩
    have hle : x0 * x0 ≤ (v.map fun x => x * x).sum :=
      List.single_le_sum
        (fun y hy => by
          rcases List.mem_map.1 hy with ⟨x, _, rfl⟩
          exact mul_self_nonneg x)
        _ hmem
    exact lt_of_lt_of_le (mul_self_pos.2 hne) hle
  unfold calculateSimilarity
  rw [if_neg (by simp)]
  simp only [simSums_eq, hd, h1, h2]
  rw [Real.mul_self_sqrt hnn]
  unfold JNum.div
  rw [if_neg (ne_of_gt hpos), div_self (ne_of_gt hpos)]

/-- C9 witness: the vector `[1]`. -/
theorem c9_witness :
    (∃ x ∈ [(1 : ℝ)], x ≠ 0) ∧
      calculateSimilarity [(1 : ℝ)] [(1 : ℝ)] = JNum.fin 1 :=
  ⟨⟨1, List.mem_singleton.2 rfl, one_ne_zero⟩,
    c9_self_similarity_is_one [(1 : ℝ)] ⟨1, List.mem_singleton.2 rfl, one_ne_zero⟩⟩

/-- C10: the similarity function is symmetric on equal-length vectors:
the dot product is symmetric and the two norms trade places around a
commutative product. -/
theorem c10_similarity_symmetric (a b : List ℝ) (h : a.length = b.length) :
    calculateSimilarity a b = calculateSimilarity b a := by
  unfold calculateSimilarity
  rw [if_neg (by simp [h]), if_neg (by simp [h])]
  simp only [simSums_eq]
  rw [← List.zip_swap a b]
  simp only [List.map_map]
  have hmc : ∀ f g : ℝ × ℝ → ℝ, (∀ p : ℝ × ℝ, f p = g p) →
      ((a.zip b).map f).sum = ((a.zip b).map g).sum := by
    intro f g hfg
    exact congrArg List.sum (List.map_congr_left fun p _ => hfg p)
  rw [hmc ((fun p => p.1 * p.2) ∘ Prod.swap) (fun p => p.1 * p.2)
      (fun p => mul_comm p.2 p.1),
    hmc ((fun p => p.1 * p.1) ∘ Prod.swap) (fun p => p.2 * p.2) (fun p => rfl),
    hmc ((fun p => p.2 * p.2) ∘ Prod.swap) (fun p => p.1 * p.1) (fun p => rfl),
    mul_comm (Real.sqrt (((a.zip b).map fun p => p.2 * p.2)).sum)
      (Real.sqrt (((a.zip b).map fun p => p.1 * p.1)).sum)]

/-- C10 witness: `[1, 2]` against `[3, 4]`. -/
theorem c10_witness :
    ([(1 : ℝ), 2].length = [(3 : ℝ), 4].length) ∧
      calculateSimilarity [(1 : ℝ), 2] [(3 : ℝ), 4]
        = calculateSimilarity [(3 : ℝ), 4] [(1 : ℝ), 2] :=
  ⟨rfl, c10_similarity_symmetric [(1 : ℝ), 2] [(3 : ℝ), 4] rfl⟩

/-! ### The claims about the matcher -/

/-- C6: with zero eligible candidates (every row's vector absent, in
particular an empty candidate list) recognition returns no-match with
score `0`, not an error. -/
theorem c6_empty_candidates_no_match (q : List ℝ) (θ : ℝ)
    (rows : List Painting) (h : ∀ p ∈ rows, p.features = none) :
    recognize q rows θ = MatchResult.noMatch (JNum.fin 0) := by
  have hfs : finScores q rows = [] := finScores_all_none h
  rcases matcherLoop_char q rows with ⟨h1, h2⟩
  rcases h2 with ⟨ha, _⟩ | ⟨l₁, p, l₂, x, hdec, ⟨fv, hpf, _⟩, _, _, _, _⟩
  · have hb : bestObserved q rows = 0 := by
      unfold bestObserved
      rw [hfs]
      rfl
    rw [hb] at h1
    simp [recognize, ha, h1]
  · exfalso
    have hp : p ∈ rows := by
      rw [hdec]
      exact List.mem_append_right _ (List.mem_cons_self _ _)
    rw [h p hp] at hpf
    cases hpf

/-- C6 witness: the empty candidate list. -/
theorem c6_witness :
    recognize [(1 : ℝ)] [] (3 / 5) = MatchResult.noMatch (JNum.fin 0) :=
  c6_empty_candidates_no_match [(1 : ℝ)] (3 / 5) [] (by intro p hp; cases hp)

/-- C8: both the similarity function and the recognition decision are
total: every pair of vectors yields a value (`NaN` or a finite score,
never an error and never an infinity), and every query, candidate list
and threshold yields either a no-match or a match response. -/
theorem c8_totality_no_exception :
    (∀ f1 f2 : List ℝ,
        calculateSimilarity f1 f2 = JNum.nan ∨
          ∃ x : ℝ, calculateSimilarity f1 f2 = JNum.fin x) ∧
      (∀ (q : List ℝ) (rows : List Painting) (θ : ℝ),
        (∃ s, recognize q rows θ = MatchResult.noMatch s) ∨
          ∃ p s, recognize q rows θ = MatchResult.matched p s) := by
  constructor
  · exact calculateSimilarity_cases
  · intro q rows θ
    cases hm : (matcherLoop q rows).1 with
    | none => exact Or.inl ⟨(matcherLoop q rows).2, by simp [recognize, hm]⟩
    | some p =>
        by_cases hgt : JNum.gt (matcherLoop q rows).2 (JNum.fin θ) = true
        · exact Or.inr ⟨p, (matcherLoop q rows).2, by simp [recognize, hm, hgt]⟩
        · exact Or.inl ⟨(matcherLoop q rows).2, by simp [recognize, hm, hgt]⟩

/-- C4: the reported confidence is `0` or a strictly positive similarity
of some eligible candidate (hence never negative and never `NaN`), and a
returned match always names an in-list candidate whose similarity is
finite, strictly positive, and equal to the carried score: a candidate
scoring `≤ 0` or `NaN` is never selected, because the running best starts
at `0` and only a strict increase updates it. -/
theorem c4_score_invariants (q : List ℝ) (rows : List Painting) (θ : ℝ) :
    ((recognize q rows θ).confidence = JNum.fin 0 ∨
      ∃ p ∈ rows, ∃ fv x, p.features = some fv ∧
        calculateSimilarity q fv = JNum.fin x ∧ 0 < x ∧
        (recognize q rows θ).confidence = JNum.fin x) ∧
    (∀ p s, recognize q rows θ = MatchResult.matched p s →
      p ∈ rows ∧ ∃ fv x, p.features = some fv ∧
        calculateSimilarity q fv = JNum.fin x ∧ s = JNum.fin x ∧ 0 < x) := by
  rcases matcherLoop_char q rows with ⟨h1, h2⟩
  rcases h2 with ⟨ha, hb⟩ | ⟨l₁, p, l₂, x, hdec, ⟨fv, hpf, hsim⟩, hx, hlt, hfst, hmax⟩
  · have hM : bestObserved q rows = 0 := by
      unfold bestObserved
      exact foldl_max_const hb
    rw [hM] at h1
    have hrec : recognize q rows θ = MatchResult.noMatch (JNum.fin 0) := by
      simp [recognize, ha, h1]
    constructor
    · exact Or.inl (by rw [hrec]; rfl)
    · intro p s hps
      rw [hrec] at hps
      cases hps
  · have hp : p ∈ rows := by
      rw [hdec]
      exact List.mem_append_right _ (List.mem_cons_self _ _)
    have hst2 : (matcherLoop q rows).2 = JNum.fin x := by rw [h1, hmax]
    by_cases hgt : JNum.gt (JNum.fin x) (JNum.fin θ) = true
    · have hrec : recognize q rows θ = MatchResult.matched p (JNum.fin x) := by
        simp [recognize, hfst, hst2, hgt]
      constructor
      · exact Or.inr ⟨p, hp, fv, x, hpf, hsim, hx, by rw [hrec]; rfl⟩
      · intro p' s hps
        rw [hrec] at hps
        injection hps with hpp hss
        subst hpp
        exact ⟨hp, fv, x, hpf, hsim, hss.symm, hx⟩
    · have hrec : recognize q rows θ = MatchResult.noMatch (JNum.fin x) := by
        simp [recognize, hfst, hst2, hgt]
      constructor
      · exact Or.inr ⟨p, hp, fv, x, hpf, hsim, hx, by rw [hrec]; rfl⟩
      · intro p' s hps
        rw [hrec] at hps
        cases hps

/-- C4 witness: the single `[1]` candidate at the handler's threshold. -/
theorem c4_witness :
    recognize [(1 : ℝ)] [⟨1, some [(1 : ℝ)]⟩] confidenceThreshold
        = MatchResult.matched ⟨1, some [(1 : ℝ)]⟩ (JNum.fin 1) ∧
      ((⟨1, some [(1 : ℝ)]⟩ : Painting) ∈ [(⟨1, some [(1 : ℝ)]⟩ : Painting)] ∧
        ∃ fv x, (⟨1, some [(1 : ℝ)]⟩ : Painting).features = some fv ∧
          calculateSimilarity [(1 : ℝ)] fv = JNum.fin x ∧
          JNum.fin 1 = JNum.fin x ∧ 0 < x) :=
  ⟨recognize_eval_pos,
    (c4_score_invariants [(1 : ℝ)] [⟨1, some [(1 : ℝ)]⟩] confidenceThreshold).2
      ⟨1, some [(1 : ℝ)]⟩ (JNum.fin 1) recognize_eval_pos⟩

/-- C2 counterexample: one eligible candidate with vector `[-1]` against
query `[1]` has similarity `-1`, which does not exceed the threshold
`1/2`; the claim says the no-match response carries the maximum observed
score `-1`, but the code reports `0` (the loop's running best never drops
below its initial `0`). -/
theorem c2_counterexample :
    calculateSimilarity [(1 : ℝ)] [(-1 : ℝ)] = JNum.fin (-1) ∧
      recognize [(1 : ℝ)] [⟨1, some [(-1 : ℝ)]⟩] (1 / 2)
        = MatchResult.noMatch (JNum.fin 0) ∧
      MatchResult.noMatch (JNum.fin (0 : ℝ))
        ≠ MatchResult.noMatch (JNum.fin (-1 : ℝ)) := by
  refine ⟨sim_eval_one_neg, recognize_eval_neg_half, ?_⟩
  intro hcontra
  injection hcontra with h
  injection h with h2
  norm_num at h2

/-- C2 (amended): when no eligible candidate's similarity compares
strictly greater than the threshold, recognition returns no-match
carrying the maximum of `0` and the finite similarity scores of the
eligible candidates (so `0` when there are no eligible candidates, and
`0` rather than a negative best score). -/
theorem c2_below_threshold_reports_best (q : List ℝ) (rows : List Painting)
    (θ : ℝ)
    (h : ∀ p ∈ rows, ∀ fv, p.features = some fv →
      JNum.gt (calculateSimilarity q fv) (JNum.fin θ) = false) :
    recognize q rows θ
      = MatchResult.noMatch (JNum.fin (bestObserved q rows)) := by
  rcases matcherLoop_char q rows with ⟨h1, h2⟩
  rcases h2 with ⟨ha, _⟩ | ⟨l₁, p, l₂, x, hdec, ⟨fv, hpf, hsim⟩, _, _, hfst, hmax⟩
  · simp [recognize, ha, h1]
  · have hp : p ∈ rows := by
      rw [hdec]
      exact List.mem_append_right _ (List.mem_cons_self _ _)
    have hgt : JNum.gt (JNum.fin x) (JNum.fin θ) = false := by
      have := h p hp fv hpf
      rw [hsim] at this
      exact this
    have hst2 : (matcherLoop q rows).2 = JNum.fin x := by rw [h1, hmax]
    rw [hmax]
    simp [recognize, hfst, hst2, hgt]

/-- C2 witness: one eligible candidate at similarity `1`, threshold `2`. -/
theorem c2_witness :
    (∀ p ∈ [(⟨1, some [(1 : ℝ)]⟩ : Painting)], ∀ fv, p.features = some fv →
        JNum.gt (calculateSimilarity [(1 : ℝ)] fv) (JNum.fin 2) = false) ∧
      recognize [(1 : ℝ)] [⟨1, some [(1 : ℝ)]⟩] 2
        = MatchResult.noMatch
            (JNum.fin (bestObserved [(1 : ℝ)] [⟨1, some [(1 : ℝ)]⟩])) := by
  have hhyp : ∀ p ∈ [(⟨1, some [(1 : ℝ)]⟩ : Painting)], ∀ fv,
      p.features = some fv →
      JNum.gt (calculateSimilarity [(1 : ℝ)] fv) (JNum.fin 2) = false := by
    intro p hp fv hfv
    rcases List.mem_singleton.1 hp with rfl
    cases hfv
    rw [sim_eval_one_one]
    norm_num [JNum.gt]
  exact ⟨hhyp, c2_below_threshold_reports_best _ _ _ hhyp⟩

/-- C3 counterexample: at the negative threshold `-2`, the only eligible
candidate scores `-1 > -2`, so the claim requires a match; the code
returns no-match (its `bestMatch` variable is only ever set on a strict
increase above the initial `0`). -/
theorem c3_counterexample :
    calculateSimilarity [(1 : ℝ)] [(-1 : ℝ)] = JNum.fin (-1) ∧
      ((-2 : ℝ) < -1) ∧
      recognize [(1 : ℝ)] [⟨1, some [(-1 : ℝ)]⟩] (-2)
        = MatchResult.noMatch (JNum.fin 0) :=
  ⟨sim_eval_one_neg, by norm_num, recognize_eval_neg_negthr⟩

/-- C3 (amended): for nonnegative thresholds (the handler's is `0.6`),
recognition returns a match if and only if the best observed score — the
maximum of `0` and the eligible candidates' finite similarities — is
strictly greater than the threshold; in particular a best score exactly
equal to the threshold yields no-match. -/
theorem c3_match_iff_best_above_threshold (q : List ℝ) (rows : List Painting)
    (θ : ℝ) (hθ : 0 ≤ θ) :
    (∃ p s, recognize q rows θ = MatchResult.matched p s) ↔
      θ < bestObserved q rows := by
  rcases matcherLoop_char q rows with ⟨h1, h2⟩
  constructor
  · rintro ⟨p, s, hps⟩
    rcases h2 with ⟨ha, _⟩ | ⟨l₁, p', l₂, x, hdec, _, _, _, hfst, hmax⟩
    · simp [recognize, ha, h1] at hps
    · have hst2 : (matcherLoop q rows).2 = JNum.fin x := by rw [h1, hmax]
      by_cases hgt : JNum.gt (JNum.fin x) (JNum.fin θ) = true
      · have hxθ : θ < x := by simpa [JNum.gt] using hgt
        rw [hmax]
        exact hxθ
      · have hrec : recognize q rows θ = MatchResult.noMatch (JNum.fin x) := by
          simp [recognize, hfst, hst2, hgt]
        rw [hrec] at hps
        cases hps
  · intro hbest
    rcases h2 with ⟨ha, hb⟩ | ⟨l₁, p', l₂, x, hdec, _, _, _, hfst, hmax⟩
    · exfalso
      have hM : bestObserved q rows = 0 := by
        unfold bestObserved
        exact foldl_max_const hb
      rw [hM] at hbest
      exact absurd hbest (not_lt.2 hθ)
    · have hst2 : (matcherLoop q rows).2 = JNum.fin x := by rw [h1, hmax]
      have hxθ : θ < x := by
        rw [hmax] at hbest
        exact hbest
      have hgt : JNum.gt (JNum.fin x) (JNum.fin θ) = true := by
        simp [JNum.gt, hxθ]
      exact ⟨p', JNum.fin x, by simp [recognize, hfst, hst2, hgt]⟩

/-- C3 witness: one eligible candidate at similarity `1`, threshold
`1/2 ≥ 0`. -/
theorem c3_witness :
    (0 : ℝ) ≤ 1 / 2 ∧
      ((∃ p s, recognize [(1 : ℝ)] [⟨1, some [(1 : ℝ)]⟩] (1 / 2)
          = MatchResult.matched p s) ↔
        1 / 2 < bestObserved [(1 : ℝ)] [⟨1, some [(1 : ℝ)]⟩]) :=
  ⟨by norm_num,
    c3_match_iff_best_above_threshold [(1 : ℝ)] [⟨1, some [(1 : ℝ)]⟩] (1 / 2)
      (by norm_num)⟩

/-- C7: a returned match is the first-encountered candidate attaining the
winning score: the candidate list splits around the winner, every
eligible candidate before it scores strictly less, every eligible
candidate anywhere scores at most the winning score, and the selection is
a pure function of the input order (ties are broken in favour of the
earlier row because a tie is not a strict increase). -/
theorem c7_first_encountered_wins (q : List ℝ) (rows : List Painting)
    (θ : ℝ) (p : Painting) (s : JNum)
    (h : recognize q rows θ = MatchResult.matched p s) :
    ∃ l₁ l₂ fv x, rows = l₁ ++ p :: l₂ ∧ p.features = some fv ∧
      calculateSimilarity q fv = JNum.fin x ∧ s = JNum.fin x ∧
      (∀ y ∈ finScores q l₁, y < x) ∧
      (∀ y ∈ finScores q rows, y ≤ x) := by
  rcases matcherLoop_char q rows with ⟨h1, h2⟩
  rcases h2 with ⟨ha, _⟩ | ⟨l₁, p', l₂, x, hdec, ⟨fv, hpf, hsim⟩, _, hlt, hfst, hmax⟩
  · simp [recognize, ha, h1] at h
  · have hst2 : (matcherLoop q rows).2 = JNum.fin x := by rw [h1, hmax]
    by_cases hgt : JNum.gt (JNum.fin x) (JNum.fin θ) = true
    · have hrec : recognize q rows θ = MatchResult.matched p' (JNum.fin x) := by
        simp [recognize, hfst, hst2, hgt]
      rw [hrec] at h
      injection h with hpp hss
      subst hpp
      refine ⟨l₁, l₂, fv, x, hdec, hpf, hsim, hss.symm, hlt, ?_⟩
      intro y hy
      have hyM : y ≤ (finScores q rows).foldl max 0 := le_foldl_max_of_mem hy 0
      have hMx : (finScores q rows).foldl max 0 = x := hmax
      rw [hMx] at hyM
      exact hyM
    · have hrec : recognize q rows θ = MatchResult.noMatch (JNum.fin x) := by
        simp [recognize, hfst, hst2, hgt]
      rw [hrec] at h
      cases h

/-- C7 witness: two candidates with identical vectors tie at score `1`;
the first is returned and the decomposition names it. -/
theorem c7_witness :
    recognize [(1 : ℝ)] [⟨1, some [(1 : ℝ)]⟩, ⟨2, some [(1 : ℝ)]⟩] (1 / 2)
        = MatchResult.matched ⟨1, some [(1 : ℝ)]⟩ (JNum.fin 1) ∧
      ∃ l₁ l₂ fv x,
        [(⟨1, some [(1 : ℝ)]⟩ : Painting), ⟨2, some [(1 : ℝ)]⟩]
            = l₁ ++ (⟨1, some [(1 : ℝ)]⟩ : Painting) :: l₂ ∧
        (⟨1, some [(1 : ℝ)]⟩ : Painting).features = some fv ∧
        calculateSimilarity [(1 : ℝ)] fv = JNum.fin x ∧
        JNum.fin 1 = JNum.fin x ∧
        (∀ y ∈ finScores [(1 : ℝ)] l₁, y < x) ∧
        (∀ y ∈ finScores [(1 : ℝ)]
            [(⟨1, some [(1 : ℝ)]⟩ : Painting), ⟨2, some [(1 : ℝ)]⟩], y ≤ x) :=
  ⟨recognize_eval_tie,
    c7_first_encountered_wins [(1 : ℝ)]
      [⟨1, some [(1 : ℝ)]⟩, ⟨2, some [(1 : ℝ)]⟩] (1 / 2)
      ⟨1, some [(1 : ℝ)]⟩ (JNum.fin 1) recognize_eval_tie⟩
